import Mathlib

/-!
# CloudFusion: verified embedding of the filesystem core

A shallow embedding, in Lean 4, of the core data structures and operations of
the CloudFusion FUSE filesystem (Go): the integer-stream allocator, the
block-addressed inode read/write/delete traversal, the superblock
marshalling, the write-back LRU cache's tracking structure, and the
directory `Remove` operation.

Conventions of the embedding:
* Go `uint64` values are `Nat`s, with wrap-around taken explicitly modulo
  `2^64` (`U64`) at the operations where Go would wrap.
* Byte buffers (`[N]byte`, `[]byte`) are `List Nat`; a read of a byte masks
  with `% 256` exactly where Go reads a byte's value.
* Remote storage (the DynamoDB cache plus the S3 bucket, which compose to a
  single key-value store for every block operation: `getDataByKey` consults
  the cache first and falls back to the bucket) is one association list per
  key namespace, keyed by the block number.  The key strings produced by
  `genDataKey`/`genInodeBlockKey` are injective functions of the number
  (the hash prefix is recomputed from the number and the decimal suffix
  already determines it), so keying by the number is faithful.
* Transport errors of the remote stores are modelled as absent (the spec
  treats transport as an external contract); `deleteBlock` of a missing key
  returns no error, as S3's `DeleteObject` of a missing key succeeds.
* A Go `panic` (out-of-range slice index) is modelled as `Option.none`.
-/

set_option maxRecDepth 10000

/-- `2^64`, the modulus of Go's `uint64` arithmetic. -/
def U64 : Nat := 2 ^ 64

/-- `2^16`, the modulus of Go's `uint16` arithmetic. -/
def U16 : Nat := 2 ^ 16

/-- Wrapping `uint64` subtraction `a - b` as Go computes it (both arguments
reduced into the `uint64` range first). -/
def wrapSub (a b : Nat) : Nat := (a % U64 + U64 - b % U64) % U64

/-- Little-endian byte encoding of `n` on `w` bytes
(`binary.LittleEndian.PutUint64` is `toLEBytes 8`). -/
def toLEBytes : Nat → Nat → List Nat
  | 0, _ => []
  | w + 1, n => n % 256 :: toLEBytes w (n / 256)

/-- Little-endian byte decoding (`binary.LittleEndian.Uint64` on 8 bytes). -/
def fromLEBytes : List Nat → Nat
  | [] => 0
  | b :: rest => b % 256 + 256 * fromLEBytes rest

/-- `l[start : start+len]`, the Go slice-read of a byte range. -/
def readRange (l : List Nat) (start len : Nat) : List Nat :=
  (l.drop start).take len

/-- `copy(dst[start:start+len(src)], src)`: the in-bounds Go copy of `src`
over `dst` starting at `start`.  (Call sites that can make Go panic check
their slice bounds explicitly and return `none` there.) -/
def writeRange (dst : List Nat) (start : Nat) (src : List Nat) : List Nat :=
  dst.take start ++ src ++ dst.drop (start + src.length)

/-! ## Integer stream allocator (`IntStream`, src/cache.go)

The stream's `container/list` stack is its front-to-back element list:
`put` pushes at the front, `next` pops the front. -/

structure IntStream where
  stack : List Nat
  lastInt : Nat
deriving DecidableEq

/-- `IntStream.next`: pop the stack's front if non-empty, else increment
`lastInt` (a `uint64`, so modulo `2^64`) and return it. -/
def IntStream.next (s : IntStream) : Nat × IntStream :=
  match s.stack with
  | [] => ((s.lastInt + 1) % U64, { stack := [], lastInt := (s.lastInt + 1) % U64 })
  | x :: rest => (x, { s with stack := rest })

/-- `IntStream.put`: push onto the stack's front, with no validation. -/
def IntStream.put (s : IntStream) (n : Nat) : IntStream :=
  { s with stack := n :: s.stack }

/-- `compressStream`: the 8 little-endian bytes of `lastInt`. -/
def IntStream.compressStream (s : IntStream) : List Nat :=
  toLEBytes 8 s.lastInt

/-- `decompressStream`: restore `lastInt` from 8 little-endian bytes. -/
def IntStream.decompressStream (s : IntStream) (buf : List Nat) : IntStream :=
  { s with lastInt := fromLEBytes (buf.take 8) }

/-- Models the external `encoding/gob` encoder applied to a `[]uint64`, by a
concrete reversible byte encoding (8 little-endian bytes per element).  The
repository relies on the codec only through its round-trip contract. -/
def gobEncodeList (l : List Nat) : List Nat :=
  l.foldr (fun x acc => toLEBytes 8 x ++ acc) []

/-- Models the external `encoding/gob` decoder for a `[]uint64`; `none` is a
decoding error.  The first argument is recursion fuel (the data's length). -/
def gobDecodeListAux : Nat → List Nat → Option (List Nat)
  | _, [] => some []
  | 0, _ => none
  | fuel + 1, data =>
    if data.length < 8 then none
    else (gobDecodeListAux fuel (data.drop 8)).map (fromLEBytes (data.take 8) :: ·)

/-- Decode a gob-encoded `[]uint64`. -/
def gobDecodeList (data : List Nat) : Option (List Nat) :=
  gobDecodeListAux data.length data

/-- `IntStream.MarshalBinary` (src/cache.go lines 716-732): the drain loop
removes the stack's front element and stores it at the highest unfilled slot
of `listArray`, so `listArray` ends as the reverse of the stack and the
stack ends empty; `listArray` is then gob-encoded. -/
def IntStream.MarshalBinary (s : IntStream) : List Nat × IntStream :=
  (gobEncodeList s.stack.reverse, { s with stack := [] })

/-- `IntStream.UnmarshalBinary` (src/cache.go lines 737-752): decode
`listArray` and push each element at the stack's front in order, so the new
stack is the reverse of `listArray`.  `none` models the `os.Exit(2)` taken on
a gob decoding error. -/
def IntStream.UnmarshalBinary (s : IntStream) (data : List Nat) : Option IntStream :=
  (gobDecodeList data).map fun arr => { s with stack := arr.reverse }

/-! ## Filesystem constants (src/unnamed/part_001, part_002) -/

def BLOCK_SIZE : Nat := 32768
def INODE_SIZE : Nat := 512
def NUM_DATA_BLOCKS : Nat := 12
def INODE_WITHOUT_BUFFER_SIZE : Nat := 139
def INODE_BUFFER_SIZE : Nat := INODE_SIZE - INODE_WITHOUT_BUFFER_SIZE
def FIRST_DATA_BLOCK_BYTE : Nat := INODE_BUFFER_SIZE
def FIRST_SINGLY_INDIRECT_BYTE : Nat := FIRST_DATA_BLOCK_BYTE + NUM_DATA_BLOCKS * BLOCK_SIZE
def FIRST_DOUBLY_INDIRECT_BYTE : Nat := FIRST_SINGLY_INDIRECT_BYTE + BLOCK_SIZE * BLOCK_SIZE
def FIRST_TRIPLY_INDIRECT_BYTE : Nat :=
  FIRST_DOUBLY_INDIRECT_BYTE + BLOCK_SIZE * BLOCK_SIZE * BLOCK_SIZE
def IND_BLOCK : Nat := NUM_DATA_BLOCKS
def IND_BLOCK_SIZE : Nat := BLOCK_SIZE * BLOCK_SIZE
def DOUB_IND_BLOCK : Nat := NUM_DATA_BLOCKS + 1
def DOUB_IND_BLOCK_SIZE : Nat := BLOCK_SIZE * BLOCK_SIZE * BLOCK_SIZE
def TRIP_IND_BLOCK : Nat := NUM_DATA_BLOCKS + 2
def ROOT_INODE : Nat := 1

/-- Wrapping `uint16` subtraction, for the `LinkCount--` decrement. -/
def wrapSub16 (a b : Nat) : Nat := (a % U16 + U16 - b % U16) % U16

/-- A data block: a `BLOCK_SIZE`-byte array. -/
structure DataBlock where
  Data : List Nat
deriving DecidableEq

/-- `new(DataBlock)`: the zero-filled block. -/
def zeroBlock : DataBlock := ⟨List.replicate BLOCK_SIZE 0⟩

/-- The inode record (src/unnamed/part_001 lines 32-43).  `DataBuf` has
`INODE_BUFFER_SIZE` entries and `Data` has `NUM_DATA_BLOCKS + 3` entries
(direct extents, then singly/doubly/triply indirect block numbers). -/
structure Inode where
  Size : Nat
  LinkCount : Nat
  UnixTime : Int
  IsDir : Nat
  DataBuf : List Nat
  Data : List Nat
deriving DecidableEq

/-- The remote state every block operation reaches: the data-block store and
the inode-block store (each the composition of the DynamoDB cache and the S3
bucket, keyed by block number), the two process-wide allocators, the clock
reading `time.Now().Unix()`, and the log of block-delete requests issued
(most recent last). -/
structure FsState where
  dataBlocks : List (Nat × DataBlock)
  inodeBlocks : List (Nat × DataBlock)
  dataStream : IntStream
  inodeStream : IntStream
  now : Int
  deleteLog : List Nat
deriving DecidableEq

/-- Map-write into a keyed store: replace the key's entry or append one. -/
def setBlock : List (Nat × DataBlock) → Nat → DataBlock → List (Nat × DataBlock)
  | [], k, v => [(k, v)]
  | (k', v') :: rest, k, v =>
    if k' = k then (k, v) :: rest else (k', v') :: setBlock rest k v

/-- Map-delete from a keyed store. -/
def delBlockKey : List (Nat × DataBlock) → Nat → List (Nat × DataBlock)
  | [], _ => []
  | (k', v') :: rest, k => if k' = k then rest else (k', v') :: delBlockKey rest k

/-- `getData` (src/unnamed/part_002): fetch a data block by number; `none` is
the "not found" signal (callers substitute a zero-filled block). -/
def getData (st : FsState) (dataNum : Nat) : Option DataBlock :=
  st.dataBlocks.lookup dataNum

/-- `putData`: upload a data block under its number. -/
def putData (dataNum : Nat) (blk : DataBlock) (st : FsState) : FsState :=
  { st with dataBlocks := setBlock st.dataBlocks dataNum blk }

/-- `deleteBlock` (src/unnamed/part_002 lines 53-66): delete a data block
from both remote stores and record the request.  S3's `DeleteObject` of a
missing key succeeds, so the function returns no error. -/
def deleteBlock (dataNum : Nat) (st : FsState) : FsState :=
  { st with
    dataBlocks := delBlockKey st.dataBlocks dataNum
    deleteLog := st.deleteLog ++ [dataNum] }

/-- `getInodeBlock`: fetch the inode block holding `inodeNum`
(`BLOCK_SIZE / INODE_SIZE` inodes pack into one block). -/
def getInodeBlock (st : FsState) (inodeNum : Nat) : Option DataBlock :=
  st.inodeBlocks.lookup (inodeNum / (BLOCK_SIZE / INODE_SIZE))

/-- `putInodeBlock`: upload the inode block holding `inodeNum`. -/
def putInodeBlock (inodeNum : Nat) (blk : DataBlock) (st : FsState) : FsState :=
  { st with inodeBlocks := setBlock st.inodeBlocks (inodeNum / (BLOCK_SIZE / INODE_SIZE)) blk }

/-! ## Inode operations (src/unnamed/part_001) -/

/-- `Inode.updateSize`: set `Size` and stamp the modification time. -/
def Inode.updateSize (i : Inode) (size : Nat) (now : Int) : Inode :=
  { i with Size := size, UnixTime := now }

/-- `createInode`: a fresh zeroed inode stamped with the current time. -/
def createInode (isDir : Nat) (now : Int) : Inode :=
  { Size := 0, LinkCount := 0, UnixTime := now, IsDir := isDir
    DataBuf := List.replicate INODE_BUFFER_SIZE 0
    Data := List.replicate (NUM_DATA_BLOCKS + 3) 0 }

/-- `Inode.writeBlock` (lines 532-557): write as much of `data` as fits into
the block `blockNum` at the relative `offset`; a missing block is replaced by
a zero-filled one under a freshly allocated number.  Returns the (possibly
new) block number and the unwritten remainder of `data`. -/
def writeBlock (data : List Nat) (offset blockNum : Nat) (st : FsState) :
    (Nat × List Nat) × FsState :=
  let (oldData, blockNum, st) :=
    match getData st blockNum with
    | none =>
      let (n, ds) := st.dataStream.next
      (zeroBlock, n, { st with dataStream := ds })
    | some blk => (blk, blockNum, st)
  let size := data.length
  let writeEnd := if BLOCK_SIZE < offset + size then BLOCK_SIZE else offset + size
  let writeLen := writeEnd - offset
  let st := putData blockNum ⟨writeRange oldData.Data offset (data.take writeLen)⟩ st
  ((blockNum, data.drop writeLen), st)

/-- The slot loop of `Inode.writeIndirect` (`for j = 0; j < BLOCK_SIZE;
j = j + 8`): the first argument is the number of remaining iterations, the
second the byte index `j`. -/
def writeIndirectLoop : Nat → Nat → List Nat → List Nat → Nat → FsState →
    List Nat × List Nat × FsState
  | 0, _, blkBytes, data, _, st => (blkBytes, data, st)
  | iters + 1, j, blkBytes, data, offset, st =>
    if offset < BLOCK_SIZE ∧ data ≠ [] then
      let blockNum := fromLEBytes (readRange blkBytes j 8)
      let ((blockNum, data), st) := writeBlock data offset blockNum st
      writeIndirectLoop iters (j + 8) (writeRange blkBytes j (toLEBytes 8 blockNum)) data 0 st
    else
      writeIndirectLoop iters (j + 8) blkBytes data (wrapSub offset BLOCK_SIZE) st

/-- `Inode.writeIndirect` (lines 563-592).  (`fetch` is the fetched block,
the possibly fresh block number, and the state after a possible
allocation.) -/
def writeIndirect (data : List Nat) (offset indBlockNum : Nat) (st : FsState) :
    (Nat × List Nat) × FsState :=
  let fetch : DataBlock × Nat × FsState :=
    match getData st indBlockNum with
    | none =>
      (zeroBlock, st.dataStream.next.1, { st with dataStream := st.dataStream.next.2 })
    | some blk => (blk, indBlockNum, st)
  let p := writeIndirectLoop (BLOCK_SIZE / 8) 0 fetch.1.Data data offset fetch.2.2
  ((fetch.2.1, p.2.1), putData fetch.2.1 ⟨p.1⟩ p.2.2)

/-- The slot loop of `Inode.writeDoubIndirect` (guard `offset <
IND_BLOCK_SIZE`). -/
def writeDoubIndirectLoop : Nat → Nat → List Nat → List Nat → Nat → FsState →
    List Nat × List Nat × FsState
  | 0, _, blkBytes, data, _, st => (blkBytes, data, st)
  | iters + 1, j, blkBytes, data, offset, st =>
    if offset < IND_BLOCK_SIZE ∧ data ≠ [] then
      let indBlockNum := fromLEBytes (readRange blkBytes j 8)
      let ((indBlockNum, data), st) := writeIndirect data offset indBlockNum st
      writeDoubIndirectLoop iters (j + 8) (writeRange blkBytes j (toLEBytes 8 indBlockNum))
        data 0 st
    else
      writeDoubIndirectLoop iters (j + 8) blkBytes data (wrapSub offset IND_BLOCK_SIZE) st

/-- `Inode.writeDoubIndirect` (lines 598-626). -/
def writeDoubIndirect (data : List Nat) (offset doubBlockNum : Nat) (st : FsState) :
    (Nat × List Nat) × FsState :=
  let fetch : DataBlock × Nat × FsState :=
    match getData st doubBlockNum with
    | none =>
      (zeroBlock, st.dataStream.next.1, { st with dataStream := st.dataStream.next.2 })
    | some blk => (blk, doubBlockNum, st)
  let p := writeDoubIndirectLoop (BLOCK_SIZE / 8) 0 fetch.1.Data data offset fetch.2.2
  ((fetch.2.1, p.2.1), putData fetch.2.1 ⟨p.1⟩ p.2.2)

/-- The slot loop of `Inode.writeTripIndirect`.  The source iterates `j` up
to `DOUB_IND_BLOCK_SIZE`, not `BLOCK_SIZE` (its slot reads past the block's
end once `j ≥ BLOCK_SIZE`); the iteration count is kept as the source has
it. -/
def writeTripIndirectLoop : Nat → Nat → List Nat → List Nat → Nat → FsState →
    List Nat × List Nat × FsState
  | 0, _, blkBytes, data, _, st => (blkBytes, data, st)
  | iters + 1, j, blkBytes, data, offset, st =>
    if offset < DOUB_IND_BLOCK_SIZE ∧ data ≠ [] then
      let doubBlockNum := fromLEBytes (readRange blkBytes j 8)
      let ((doubBlockNum, data), st) := writeDoubIndirect data offset doubBlockNum st
      writeTripIndirectLoop iters (j + 8) (writeRange blkBytes j (toLEBytes 8 doubBlockNum))
        data 0 st
    else
      writeTripIndirectLoop iters (j + 8) blkBytes data (wrapSub offset DOUB_IND_BLOCK_SIZE) st

/-- `Inode.writeTripIndirect` (lines 632-658). -/
def writeTripIndirect (data : List Nat) (offset tripBlockNum : Nat) (st : FsState) :
    (Nat × List Nat) × FsState :=
  let fetch : DataBlock × Nat × FsState :=
    match getData st tripBlockNum with
    | none =>
      (zeroBlock, st.dataStream.next.1, { st with dataStream := st.dataStream.next.2 })
    | some blk => (blk, tripBlockNum, st)
  let p := writeTripIndirectLoop (DOUB_IND_BLOCK_SIZE / 8) 0 fetch.1.Data data offset fetch.2.2
  ((fetch.2.1, p.2.1), putData fetch.2.1 ⟨p.1⟩ p.2.2)

/-- The direct-extent loop of `Inode.writeDataBlocks` over the first
`NUM_DATA_BLOCKS` slots of `i.Data`; returns the updated slots, the
remaining data, the remaining offset and the state. -/
def writeDirectLoop : List Nat → List Nat → Nat → FsState →
    List Nat × List Nat × Nat × FsState
  | [], data, offset, st => ([], data, offset, st)
  | slot :: rest, data, offset, st =>
    if offset < BLOCK_SIZE ∧ data ≠ [] then
      let ((slot, data), st) := writeBlock data offset slot st
      let (rest, data, offset, st) := writeDirectLoop rest data 0 st
      (slot :: rest, data, offset, st)
    else
      let (rest', data, offset, st) := writeDirectLoop rest data (wrapSub offset BLOCK_SIZE) st
      (slot :: rest', data, offset, st)

/-- The body of `Inode.writeDataBlocks` (lines 492-524) acting on the
15-slot extent array; returns the updated array and state.  Each stage's
result is a tuple (slot number, remaining data, remaining offset, state)
read back by projection. -/
def writeDataBlocksCore (slots : List Nat) (data : List Nat) (offset : Nat) (st : FsState) :
    List Nat × FsState :=
  let q := writeDirectLoop (slots.take NUM_DATA_BLOCKS) data offset st
  let r1 : Nat × List Nat × Nat × FsState :=
    if q.2.1 ≠ [] ∧ q.2.2.1 < FIRST_DOUBLY_INDIRECT_BYTE then
      let w := writeIndirect q.2.1 q.2.2.1 (slots.getD IND_BLOCK 0) q.2.2.2
      (w.1.1, w.1.2, 0, w.2)
    else
      (slots.getD IND_BLOCK 0, q.2.1, wrapSub q.2.2.1 (BLOCK_SIZE * BLOCK_SIZE), q.2.2.2)
  let r2 : Nat × List Nat × Nat × FsState :=
    if r1.2.1 ≠ [] ∧ r1.2.2.1 < FIRST_TRIPLY_INDIRECT_BYTE then
      let w := writeDoubIndirect r1.2.1 r1.2.2.1 (slots.getD DOUB_IND_BLOCK 0) r1.2.2.2
      (w.1.1, w.1.2, 0, w.2)
    else
      (slots.getD DOUB_IND_BLOCK 0, r1.2.1,
        wrapSub r1.2.2.1 (BLOCK_SIZE * BLOCK_SIZE * BLOCK_SIZE), r1.2.2.2)
  let r3 : Nat × FsState :=
    if r2.2.1 ≠ [] then
      let w := writeTripIndirect r2.2.1 r2.2.2.1 (slots.getD TRIP_IND_BLOCK 0) r2.2.2.2
      (w.1.1, w.2)
    else (slots.getD TRIP_IND_BLOCK 0, r2.2.2.2)
  (q.1 ++ [r1.1, r2.1, r3.1], r3.2)

/-- `Inode.writeDataBlocks`: the extent-array update assembled back into the
inode (the source mutates `i.Data` in place). -/
def writeDataBlocks (i : Inode) (data : List Nat) (offset : Nat) (st : FsState) :
    Inode × FsState :=
  let p := writeDataBlocksCore i.Data data offset st
  ({ i with Data := p.1 }, p.2)

/-- `Inode.writeToData` (lines 151-185).  `updateSize(size + offset)` runs
first, unconditionally.  In the inline-buffer branch the source computes
`writeEnd = size - offset` (where the read path uses `offset + leftToRead`),
both subtractions on `uint64`; the guard returns `none` exactly where Go's
slice expressions `i.DataBuf[offset:writeEnd]`, `data[0:writeLen]` and
`data[writeLen:]` panic. -/
def Inode.writeToData (i : Inode) (data : List Nat) (offset : Nat) (st : FsState) :
    Option (Inode × FsState) :=
  let size := data.length
  let i := i.updateSize ((size + offset) % U64) st.now
  let step1 : Option (Inode × List Nat) :=
    if offset < INODE_BUFFER_SIZE then
      let writeEnd :=
        if wrapSub size offset < INODE_BUFFER_SIZE then wrapSub size offset
        else INODE_BUFFER_SIZE
      let writeLen := wrapSub writeEnd offset
      if offset ≤ writeEnd ∧ writeEnd ≤ INODE_BUFFER_SIZE ∧ writeLen ≤ data.length then
        some ({ i with DataBuf := writeRange i.DataBuf offset (data.take writeLen) },
          data.drop writeLen)
      else none
    else some (i, data)
  match step1 with
  | none => none
  | some (i, data) =>
    if data ≠ [] then
      let newOffset := if offset < INODE_BUFFER_SIZE then 0 else offset - INODE_BUFFER_SIZE
      some (writeDataBlocks i data newOffset st)
    else some (i, st)

/-- `Inode.readBlock` (lines 385-407): copy one block's byte range into
`data` at the position `len(data) - leftToRead`; a missing block reads as
zero-filled. -/
def readBlock (data : List Nat) (offset leftToRead blockNum : Nat) (st : FsState) :
    List Nat × Nat :=
  let block := (getData st blockNum).getD zeroBlock
  let readEnd := if BLOCK_SIZE < leftToRead + offset then BLOCK_SIZE else offset + leftToRead
  let readLen := readEnd - offset
  let dataStart := data.length - leftToRead
  (writeRange data dataStart (readRange block.Data offset readLen), leftToRead - readLen)

/-- The slot loop of `Inode.readIndirect` (lines 413-433).  The source's
write-back of the just-read slot address stores the identical bytes into a
local copy of the block, a no-op, and is omitted. -/
def readIndirectLoop : Nat → Nat → List Nat → List Nat → Nat → Nat → FsState →
    List Nat × Nat
  | 0, _, _, data, _, leftToRead, _ => (data, leftToRead)
  | iters + 1, j, blkBytes, data, offset, leftToRead, st =>
    if 0 < leftToRead ∧ offset < BLOCK_SIZE then
      let blockNum := fromLEBytes (readRange blkBytes j 8)
      let (data, leftToRead) := readBlock data offset leftToRead blockNum st
      readIndirectLoop iters (j + 8) blkBytes data 0 leftToRead st
    else
      readIndirectLoop iters (j + 8) blkBytes data (wrapSub offset BLOCK_SIZE) leftToRead st

/-- `Inode.readIndirect`. -/
def readIndirect (data : List Nat) (offset leftToRead indBlockNum : Nat) (st : FsState) :
    List Nat × Nat :=
  let indBlock := (getData st indBlockNum).getD zeroBlock
  readIndirectLoop (BLOCK_SIZE / 8) 0 indBlock.Data data offset leftToRead st

/-- The slot loop of `Inode.readDoubIndirect` (guard `offset <
IND_BLOCK_SIZE`). -/
def readDoubIndirectLoop : Nat → Nat → List Nat → List Nat → Nat → Nat → FsState →
    List Nat × Nat
  | 0, _, _, data, _, leftToRead, _ => (data, leftToRead)
  | iters + 1, j, blkBytes, data, offset, leftToRead, st =>
    if 0 < leftToRead ∧ offset < IND_BLOCK_SIZE then
      let blockNum := fromLEBytes (readRange blkBytes j 8)
      let (data, leftToRead) := readIndirect data offset leftToRead blockNum st
      readDoubIndirectLoop iters (j + 8) blkBytes data 0 leftToRead st
    else
      readDoubIndirectLoop iters (j + 8) blkBytes data (wrapSub offset IND_BLOCK_SIZE)
        leftToRead st

/-- `Inode.readDoubIndirect` (lines 439-460). -/
def readDoubIndirect (data : List Nat) (offset leftToRead indBlockNum : Nat) (st : FsState) :
    List Nat × Nat :=
  let indBlock := (getData st indBlockNum).getD zeroBlock
  readDoubIndirectLoop (BLOCK_SIZE / 8) 0 indBlock.Data data offset leftToRead st

/-- The slot loop of `Inode.readTripIndirect` (guard `offset <
DOUB_IND_BLOCK_SIZE`). -/
def readTripIndirectLoop : Nat → Nat → List Nat → List Nat → Nat → Nat → FsState →
    List Nat × Nat
  | 0, _, _, data, _, leftToRead, _ => (data, leftToRead)
  | iters + 1, j, blkBytes, data, offset, leftToRead, st =>
    if 0 < leftToRead ∧ offset < DOUB_IND_BLOCK_SIZE then
      let blockNum := fromLEBytes (readRange blkBytes j 8)
      let (data, leftToRead) := readDoubIndirect data offset leftToRead blockNum st
      readTripIndirectLoop iters (j + 8) blkBytes data 0 leftToRead st
    else
      readTripIndirectLoop iters (j + 8) blkBytes data (wrapSub offset DOUB_IND_BLOCK_SIZE)
        leftToRead st

/-- `Inode.readTripIndirect` (lines 466-486). -/
def readTripIndirect (data : List Nat) (offset leftToRead indBlockNum : Nat) (st : FsState) :
    List Nat × Nat :=
  let indBlock := (getData st indBlockNum).getD zeroBlock
  readTripIndirectLoop (BLOCK_SIZE / 8) 0 indBlock.Data data offset leftToRead st

/-- The direct-extent loop of `Inode.readDataBlocks`. -/
def readDirectLoop : List Nat → List Nat → Nat → Nat → FsState → List Nat × Nat × Nat
  | [], data, offset, leftToRead, _ => (data, offset, leftToRead)
  | slot :: rest, data, offset, leftToRead, st =>
    if 0 < leftToRead ∧ offset < BLOCK_SIZE then
      let (data, leftToRead) := readBlock data offset leftToRead slot st
      readDirectLoop rest data 0 leftToRead st
    else
      readDirectLoop rest data (wrapSub offset BLOCK_SIZE) leftToRead st

/-- `Inode.readDataBlocks` (lines 348-379). -/
def readDataBlocks (i : Inode) (data : List Nat) (offset leftToRead : Nat) (st : FsState) :
    List Nat :=
  let (data, offset, leftToRead) :=
    readDirectLoop (i.Data.take NUM_DATA_BLOCKS) data offset leftToRead st
  let (data, offset, leftToRead) :=
    if 0 < leftToRead ∧ offset < FIRST_DOUBLY_INDIRECT_BYTE then
      let (data, leftToRead) := readIndirect data offset leftToRead (i.Data.getD IND_BLOCK 0) st
      (data, 0, leftToRead)
    else (data, wrapSub offset (BLOCK_SIZE * BLOCK_SIZE), leftToRead)
  let (data, offset, leftToRead) :=
    if 0 < leftToRead ∧ offset < FIRST_TRIPLY_INDIRECT_BYTE then
      let (data, leftToRead) :=
        readDoubIndirect data offset leftToRead (i.Data.getD DOUB_IND_BLOCK 0) st
      (data, 0, leftToRead)
    else (data, wrapSub offset (BLOCK_SIZE * BLOCK_SIZE * BLOCK_SIZE), leftToRead)
  let (data, _) :=
    if 0 < leftToRead then
      readTripIndirect data offset leftToRead (i.Data.getD TRIP_IND_BLOCK 0) st
    else (data, leftToRead)
  data

/-- `Inode.readFromData` (lines 191-218): fails exactly when `offset ≥ Size`;
otherwise reads `size` bytes starting from the inline buffer and continuing
through the extent strata. -/
def Inode.readFromData (i : Inode) (offset size : Nat) (st : FsState) :
    Except String (List Nat) :=
  if i.Size ≤ offset then
    .error "Offset specified to read is past the end of the file."
  else
    let data := List.replicate size 0
    let leftToRead := size
    let (data, offset, leftToRead) :=
      if offset < INODE_BUFFER_SIZE then
        let readEnd :=
          if leftToRead + offset < INODE_BUFFER_SIZE then leftToRead + offset
          else INODE_BUFFER_SIZE
        let readLen := readEnd - offset
        (writeRange data 0 (readRange i.DataBuf offset readLen), 0, leftToRead - readLen)
      else (data, offset, leftToRead)
    if 0 < leftToRead then .ok (readDataBlocks i data offset leftToRead st)
    else .ok data

/-! ## Delete traversal (src/unnamed/part_001 lines 223-342) -/

/-- `numBlocksToDelete` as `Inode.deleteAllData` computes it:
`(Size - INODE_BUFFER_SIZE) / BLOCK_SIZE + 1` once `Size` exceeds the
inline buffer. -/
def numBlocksToDelete (i : Inode) : Nat :=
  if i.Size ≤ INODE_BUFFER_SIZE then 0
  else (i.Size - INODE_BUFFER_SIZE) / BLOCK_SIZE + 1

/-- The leaf-deleting loop shared by the direct-extent walk (`j <
NUM_DATA_BLOCKS && numBlocksToDelete > 0`) and by `deleteIndirect`'s slot
walk (`j < BLOCK_SIZE && numBlocks > 0`): delete one block per element while
the counter is positive, decrementing it per deletion. -/
def deleteLeafLoop : List Nat → Nat → FsState → Nat × FsState
  | [], n, st => (n, st)
  | b :: rest, n, st =>
    if n = 0 then (n, st)
    else deleteLeafLoop rest (n - 1) (deleteBlock b st)

/-- The `BLOCK_SIZE / 8` little-endian slots of a block. -/
def blockSlots (blk : DataBlock) : List Nat :=
  (List.range (BLOCK_SIZE / 8)).map fun t => fromLEBytes (readRange blk.Data (8 * t) 8)

/-- `Inode.deleteIndirect` (lines 271-292): delete up to `numBlocks` children
named by the indirect block's slots, then the indirect block itself; a
missing indirect block reads as zero-filled (the source logs and
continues). -/
def deleteIndirect (numBlocks indBlockNum : Nat) (st : FsState) : Nat × FsState :=
  let indBlock := (getData st indBlockNum).getD zeroBlock
  let (n, st) := deleteLeafLoop (blockSlots indBlock) numBlocks st
  (n, deleteBlock indBlockNum st)

/-- The slot loop of `Inode.deleteDoubIndirect`. -/
def deleteDoubLoop : List Nat → Nat → FsState → Nat × FsState
  | [], n, st => (n, st)
  | b :: rest, n, st =>
    if n = 0 then (n, st)
    else
      let (n, st) := deleteIndirect n b st
      deleteDoubLoop rest n st

/-- `Inode.deleteDoubIndirect` (lines 297-317). -/
def deleteDoubIndirect (numBlocks indBlockNum : Nat) (st : FsState) : Nat × FsState :=
  let indBlock := (getData st indBlockNum).getD zeroBlock
  let (n, st) := deleteDoubLoop (blockSlots indBlock) numBlocks st
  (n, deleteBlock indBlockNum st)

/-- The slot loop of `Inode.deleteTripIndirect`. -/
def deleteTripLoop : List Nat → Nat → FsState → Nat × FsState
  | [], n, st => (n, st)
  | b :: rest, n, st =>
    if n = 0 then (n, st)
    else
      let (n, st) := deleteDoubIndirect n b st
      deleteTripLoop rest n st

/-- `Inode.deleteTripIndirect` (lines 322-342). -/
def deleteTripIndirect (numBlocks indBlockNum : Nat) (st : FsState) : Nat × FsState :=
  let indBlock := (getData st indBlockNum).getD zeroBlock
  let (n, st) := deleteTripLoop (blockSlots indBlock) numBlocks st
  (n, deleteBlock indBlockNum st)

/-- `Inode.deleteAllData` (lines 223-264).  The returned state carries the
deletions performed either way, as the Go globals do. -/
def Inode.deleteAllData (i : Inode) (st : FsState) : Except String Unit × FsState :=
  let n := numBlocksToDelete i
  let (n, st) :=
    deleteLeafLoop ((List.range NUM_DATA_BLOCKS).map fun j => i.Data.getD j 0) n st
  let (n, st) := if 0 < n then deleteIndirect n (i.Data.getD IND_BLOCK 0) st else (n, st)
  let (n, st) := if 0 < n then deleteDoubIndirect n (i.Data.getD DOUB_IND_BLOCK 0) st else (n, st)
  let (n, st) := if 0 < n then deleteTripIndirect n (i.Data.getD TRIP_IND_BLOCK 0) st else (n, st)
  (if 0 < n then .error "SIZE OF DELETE TOO LARGE" else .ok (), st)

/-! ## Superblock (src/unnamed/part_000) -/

/-- The continuation-block loop of `makeSuperblocks` (`for j = 1; j <
numBlocksNeeded; j++`): each block receives the next `min(len, BLOCK_SIZE)`
bytes of the remaining serialized free-stack. -/
def makeSuperblocksLoop : Nat → List Nat → List DataBlock
  | 0, _ => []
  | k + 1, inodeListData =>
    let writeEnd :=
      if BLOCK_SIZE < inodeListData.length then BLOCK_SIZE else inodeListData.length
    ⟨writeRange zeroBlock.Data 0 (inodeListData.take writeEnd)⟩ ::
      makeSuperblocksLoop k (inodeListData.drop writeEnd)

/-- `makeSuperblocks` (lines 135-173): bytes 0..8 of `super0` are the inode
stream's compressed `lastInt`, 8..16 the data stream's, 16..24 the root inode
number, 24..32 the serialized free-stack's length; the free-stack bytes
follow, continuing into further blocks. -/
def makeSuperblocks (inode data : List Nat) (root : Nat) (inodeListData : List Nat) :
    List DataBlock :=
  let inodeListSize := inodeListData.length
  let header := inode.take 8 ++ data.take 8 ++ toLEBytes 8 root ++ toLEBytes 8 inodeListSize
  let writeEnd := if BLOCK_SIZE < inodeListSize + 32 then BLOCK_SIZE else inodeListSize + 32
  let super : DataBlock :=
    ⟨writeRange (writeRange zeroBlock.Data 0 header) 32 (inodeListData.take (writeEnd - 32))⟩
  let remaining := inodeListData.drop (writeEnd - 32)
  let numBlocksNeeded := 1 + remaining.length / BLOCK_SIZE
  super :: makeSuperblocksLoop (numBlocksNeeded - 1) remaining

/-- The continuation-read loop of `makeFs` (`for i = 1; i < numBlocksNeeded;
i++`), reading `super1, super2, …` from the given block sequence (a missing
block reads as zero-filled, as `getDataByKey` returns on a miss).  The Go
copy `listData[amountRead:amountRead+readEnd]` starts 32 bytes past the
bytes already filled and can run past `listData`'s end; the splice here
extends the list where Go would panic, which no settled claim exercises. -/
def makeFsLoop : Nat → Nat → List DataBlock → List Nat → Nat → Nat → List Nat × Nat × Nat
  | 0, _, _, listData, listSize, amountRead => (listData, listSize, amountRead)
  | k + 1, i, blocks, listData, listSize, amountRead =>
    let block := blocks.getD i zeroBlock
    let readEnd := if listSize < BLOCK_SIZE then listSize else BLOCK_SIZE
    let listData := writeRange listData amountRead (readRange block.Data 0 readEnd)
    makeFsLoop k (i + 1) blocks listData (listSize - readEnd) (amountRead + readEnd)

/-- The filesystem root record (src/unnamed/part_000 lines 16-19). -/
structure FS where
  inodeStream : IntStream
  rootInode : Nat
deriving DecidableEq

/-- `makeFs` (lines 73-129), applied to the stored superblock sequence
(`blocks.getD 0` is `super0`).  Returns the `FS` and the reconstructed
global `dataStream`; `none` models the `os.Exit(2)` taken when
`UnmarshalBinary` is handed bytes that do not decode. -/
def makeFs (blocks : List DataBlock) : Option (FS × IntStream) :=
  let super := blocks.getD 0 zeroBlock
  let rootInode := fromLEBytes (readRange super.Data 16 8)
  let listSize := fromLEBytes (readRange super.Data 24 8)
  let inodeStream := IntStream.decompressStream ⟨[], 0⟩ (readRange super.Data 0 8)
  let dataStream := IntStream.decompressStream ⟨[], 0⟩ (readRange super.Data 8 8)
  let readEnd := if listSize < BLOCK_SIZE - 32 then listSize + 32 else BLOCK_SIZE
  let listData := List.replicate listSize 0
  let listData := writeRange listData 0 (readRange super.Data 32 (readEnd - 32))
  let listSize1 := listSize - (readEnd - 32)
  let amountRead := readEnd
  let numBlocksNeeded := 1 + listSize1 / BLOCK_SIZE
  let (listData, listSize2, _) := makeFsLoop (numBlocksNeeded - 1) 1 blocks listData
    listSize1 amountRead
  if 0 < listSize2 then
    match inodeStream.UnmarshalBinary listData with
    | none => none
    | some s => some ({ inodeStream := s, rootInode := rootInode }, dataStream)
  else
    some ({ inodeStream := { inodeStream with stack := [] }, rootInode := rootInode },
      dataStream)

/-! ## Write-back LRU cache (src/cache.go lines 18-206)

The cache's tracking state: the `container/list` eviction queue as its
front-to-back key list (front = least recently used).  `keyHash` holds a
non-nil element exactly while its key sits in the queue, so membership in
the queue models it.  The DynamoDB/S3 calls either succeed (`remoteOk =
true`) or fail, and a failed call leaves the tracking exactly as the source
does: `addBlock` returns before touching the queue, `getBlock` returns
before the move-to-back, `deleteBlock` has already removed the key. -/

structure Cache where
  cacheCapacity : Nat
  recentlyUsedQueue : List String
deriving DecidableEq

/-- `initializeCache` (lines 28-50): empty queue, given capacity. -/
def initializeCache (cacheSize : Nat) : Cache :=
  { cacheCapacity := cacheSize, recentlyUsedQueue := [] }

/-- `Cache.addBlock` (lines 57-98): a tracked key moves to the most-recent
end; an untracked key is appended, after evicting the front key when the
queue already holds `cacheCapacity` keys. -/
def Cache.addBlock (c : Cache) (key : String) (remoteOk : Bool) : Cache :=
  if remoteOk = false then c
  else if key ∈ c.recentlyUsedQueue then
    { c with recentlyUsedQueue := c.recentlyUsedQueue.erase key ++ [key] }
  else if c.recentlyUsedQueue.length = c.cacheCapacity then
    { c with recentlyUsedQueue := c.recentlyUsedQueue.tail ++ [key] }
  else
    { c with recentlyUsedQueue := c.recentlyUsedQueue ++ [key] }

/-- `Cache.getBlock` (lines 183-206): an untracked key misses; a tracked key
moves to the most-recent end once the DynamoDB read succeeds.  The Bool is
whether the call succeeded. -/
def Cache.getBlock (c : Cache) (key : String) (remoteOk : Bool) : Cache × Bool :=
  if key ∈ c.recentlyUsedQueue then
    if remoteOk then
      ({ c with recentlyUsedQueue := c.recentlyUsedQueue.erase key ++ [key] }, true)
    else (c, false)
  else (c, false)

/-- `Cache.deleteBlock` (lines 104-127): an untracked key is an error; a
tracked key is dropped from the queue (before the remote delete, so the drop
stands even if that call fails). -/
def Cache.deleteBlock (c : Cache) (key : String) : Cache × Bool :=
  if key ∈ c.recentlyUsedQueue then
    ({ c with recentlyUsedQueue := c.recentlyUsedQueue.erase key }, true)
  else (c, false)

/-- One cache call, with the remote call's outcome where it matters. -/
inductive CacheOp where
  | add (key : String) (remoteOk : Bool)
  | get (key : String) (remoteOk : Bool)
  | del (key : String)
deriving DecidableEq

/-- Apply one cache call to the tracking state. -/
def Cache.step (c : Cache) : CacheOp → Cache
  | .add key ok => c.addBlock key ok
  | .get key ok => (c.getBlock key ok).1
  | .del key => (c.deleteBlock key).1

/-- Apply a call sequence in order. -/
def Cache.run (c : Cache) (ops : List CacheOp) : Cache :=
  ops.foldl Cache.step c

/-! ## Directory table (src/unnamed/part_003)

The Go `map[string]uint64` is modelled as an association list with unique
keys (the map's iteration order is whatever order the list carries). -/

structure InodeTable where
  Table : List (String × Nat)
deriving DecidableEq

/-- Map-write: replace the name's entry or append one. -/
def tableSet : List (String × Nat) → String → Nat → List (String × Nat)
  | [], name, v => [(name, v)]
  | (n', v') :: rest, name, v =>
    if n' = name then (name, v) :: rest else (n', v') :: tableSet rest name v

/-- Map-delete. -/
def tableDel : List (String × Nat) → String → List (String × Nat)
  | [], _ => []
  | (n', v') :: rest, name => if n' = name then rest else (n', v') :: tableDel rest name

/-- `table[name]`: the Go map read, `0` when absent. -/
def InodeTable.lookupName (t : InodeTable) (name : String) : Nat :=
  (t.Table.lookup name).getD 0

/-- `InodeTable.add`. -/
def InodeTable.add (t : InodeTable) (fileName : String) (inode : Nat) : InodeTable :=
  ⟨tableSet t.Table fileName inode⟩

/-- `InodeTable.delete`. -/
def InodeTable.delete (t : InodeTable) (fileName : String) : InodeTable :=
  ⟨tableDel t.Table fileName⟩

/-- `InodeTable.init`: seed `".."` then `"."`. -/
def InodeTable.init (parentInode selfInode : Nat) : InodeTable :=
  (InodeTable.add (InodeTable.add ⟨[]⟩ ".." parentInode) "." selfInode)

/-- One table entry under the modelled `encoding/gob` map codec: the name's
length on 8 bytes, its characters, the inode number on 8 bytes. -/
def encodeEntry (e : String × Nat) : List Nat :=
  toLEBytes 8 e.1.length ++ e.1.data.map Char.toNat ++ toLEBytes 8 e.2

/-- `InodeTable.MarshalBinary`: the modelled gob encoding of the map.  As
with the stream codec, the repository relies on gob only through its
round-trip contract. -/
def InodeTable.MarshalBinary (t : InodeTable) : List Nat :=
  t.Table.foldr (fun e acc => encodeEntry e ++ acc) []

/-- Decode the modelled gob map encoding; fuel is the data's length. -/
def decodeTableAux : Nat → List Nat → Option (List (String × Nat))
  | _, [] => some []
  | 0, _ => none
  | fuel + 1, bytes =>
    if bytes.length < 8 then none
    else
      let nameLen := fromLEBytes (bytes.take 8)
      let rest := bytes.drop 8
      if rest.length < nameLen + 8 then none
      else
        let name : String := ⟨(rest.take nameLen).map Char.ofNat⟩
        let v := fromLEBytes ((rest.drop nameLen).take 8)
        (decodeTableAux fuel (rest.drop (nameLen + 8))).map ((name, v) :: ·)

/-- Decode a gob-encoded map. -/
def decodeTable (bytes : List Nat) : Option (List (String × Nat)) :=
  decodeTableAux bytes.length bytes

/-- `InodeTable.UnmarshalBinary`: a decoding error is returned to the caller,
every caller discards it, and the receiver's table stays nil — so a failed
decode leaves the empty table. -/
def InodeTable.UnmarshalBinary (data : List Nat) : InodeTable :=
  match decodeTable data with
  | some l => ⟨l⟩
  | none => ⟨[]⟩

/-! ## Inode serialization and the inode store (src/unnamed/part_001 lines 92-146) -/

/-- An `int64` to its 8 little-endian two's-complement bytes
(`binary.Write`). -/
def intToLEBytes8 (v : Int) : List Nat :=
  toLEBytes 8 (v % (U64 : Int)).toNat

/-- 8 little-endian bytes to the `int64` they encode (`binary.Read`). -/
def leBytesToInt (bytes : List Nat) : Int :=
  let v := fromLEBytes bytes
  if v < 2 ^ 63 then (v : Int) else (v : Int) - (U64 : Int)

/-- The `INODE_SIZE`-byte little-endian encoding of an inode, field by field
in declaration order (`binary.Write` of the struct): 8 bytes `Size`, 2 bytes
`LinkCount`, 8 bytes `UnixTime`, 1 byte `IsDir`, the inline buffer, 15 slots
of 8 bytes. -/
def encodeInode (i : Inode) : List Nat :=
  toLEBytes 8 i.Size ++ toLEBytes 2 i.LinkCount ++ intToLEBytes8 i.UnixTime ++
    [i.IsDir % 256] ++
    (i.DataBuf.take INODE_BUFFER_SIZE ++
      List.replicate (INODE_BUFFER_SIZE - i.DataBuf.length) 0) ++
    (List.range (NUM_DATA_BLOCKS + 3)).foldr (fun j acc => toLEBytes 8 (i.Data.getD j 0) ++ acc) []

/-- Decode an inode from its `INODE_SIZE`-byte encoding (`binary.Read`). -/
def decodeInode (b : List Nat) : Inode :=
  { Size := fromLEBytes (readRange b 0 8)
    LinkCount := fromLEBytes (readRange b 8 2)
    UnixTime := leBytesToInt (readRange b 10 8)
    IsDir := b.getD 18 0 % 256
    DataBuf := readRange b 19 INODE_BUFFER_SIZE
    Data := (List.range (NUM_DATA_BLOCKS + 3)).map fun j =>
      fromLEBytes (readRange b (19 + INODE_BUFFER_SIZE + 8 * j) 8) }

/-- `getInode` (lines 92-113): fetch the inode block holding `inodeNum`,
slice out the `INODE_SIZE`-byte sub-range, decode.  A missing inode block is
the error the source propagates. -/
def getInode (inodeNum : Nat) (st : FsState) : Except String Inode :=
  match getInodeBlock st inodeNum with
  | none => .error "NotFound: inode block"
  | some blk =>
    let start := inodeNum % (BLOCK_SIZE / INODE_SIZE) * INODE_SIZE
    .ok (decodeInode (readRange blk.Data start INODE_SIZE))

/-- `putInode` (lines 118-146): fetch-or-create the inode block, splice the
encoded inode into its sub-range, write it back.  On a missing block the
source only initializes a fresh one for `inodeNum % (BLOCK_SIZE/INODE_SIZE)
== 0` or `inodeNum == 1`, and otherwise returns the fetch error (the second
component; callers ignore it). -/
def putInode (inode : Inode) (inodeNum : Nat) (st : FsState) : FsState × Option String :=
  let blk? := getInodeBlock st inodeNum
  match blk? with
  | none =>
    if inodeNum % (BLOCK_SIZE / INODE_SIZE) ≠ 0 ∧ inodeNum ≠ 1 then
      (st, some "error getting inode")
    else
      let start := inodeNum % (BLOCK_SIZE / INODE_SIZE) * INODE_SIZE
      (putInodeBlock inodeNum ⟨writeRange zeroBlock.Data start (encodeInode inode)⟩ st, none)
  | some blk =>
    let start := inodeNum % (BLOCK_SIZE / INODE_SIZE) * INODE_SIZE
    (putInodeBlock inodeNum ⟨writeRange blk.Data start (encodeInode inode)⟩ st, none)

/-! ## Directory operations (src/dir.go) -/

/-- The `Dir` node (src/dir.go lines 18-22); the inode stream it carries is
the process-wide one held in `FsState`. -/
structure Dir where
  inode : Inode
  inodeNum : Nat
deriving DecidableEq

/-- `getTable` (src/dir.go lines 247-253): read the directory inode's whole
content and unmarshal it; the error is the read's (an unmarshal error is
discarded and leaves the empty table). -/
def getTable (inode : Inode) (st : FsState) : InodeTable × Option String :=
  match inode.readFromData 0 inode.Size st with
  | .ok bytes => (InodeTable.UnmarshalBinary bytes, none)
  | .error e => (InodeTable.UnmarshalBinary [], some e)

/-- `Dir.removeFile` (src/dir.go lines 136-158): re-read the table, drop the
entry, write the table back at offset 0, persist the directory inode.
`none` models a Go panic inside `writeToData`; the `Except` component is the
returned inode number or the `fuse.ENOENT` failure, and the `Dir`/`FsState`
components are the directory and globals as the call leaves them. -/
def Dir.removeFile (d : Dir) (name : String) (st : FsState) :
    Option (Except String Nat × Dir × FsState) :=
  let data :=
    match d.inode.readFromData 0 d.inode.Size st with
    | .ok bytes => bytes
    | .error _ => []
  let table := InodeTable.UnmarshalBinary data
  let inodeNum := table.lookupName name
  if inodeNum = 0 then some (.error "ENOENT", d, st)
  else
    let table := table.delete name
    let out := table.MarshalBinary
    match d.inode.writeToData out 0 st with
    | none => none
    | some (inode, st) =>
      let (st, _) := putInode inode d.inodeNum st
      some (.ok inodeNum, { d with inode := inode }, st)

/-- `Dir.Remove` (src/dir.go lines 271-308).  `reqDir` is `req.Dir`, the
rmdir hint.  The decremented `LinkCount` is a `uint16`.  When the count
reaches zero the inode's data is deleted and its number returned to the
inode stream; the entry is then removed from the parent's table.  `none`
models a Go panic; `putInode`'s error is ignored as in the source.  The
`Dir` and `FsState` components carry the directory and the globals as the
call leaves them (on the failure paths before any mutation they are the
inputs unchanged). -/
def Dir.Remove (d : Dir) (name : String) (reqDir : Bool) (st : FsState) :
    Option (Except String Unit × Dir × FsState) :=
  let (table, _) := getTable d.inode st
  let inodeNum := table.lookupName name
  if inodeNum = 0 then some (.error "ENOENT", d, st)
  else
    match getInode inodeNum st with
    | .error e => some (.error e, d, st)
    | .ok inode =>
      let dirCheck : Option String :=
        if reqDir = true ∧ inode.IsDir = 1 then
          let (removeTable, err) := getTable inode st
          match err with
          | some e => some e
          | none =>
            if removeTable.Table.length ≠ 2 then
              some ("Cannot remove non-empty directory " ++ name ++ ".")
            else none
        else none
      match dirCheck with
      | some e => some (.error e, d, st)
      | none =>
        let inode := { inode with LinkCount := wrapSub16 inode.LinkCount 1 }
        let (failed, st) :=
          if inode.LinkCount = 0 then
            match inode.deleteAllData st with
            | (.error e, st) => (some e, st)
            | (.ok (), st) => (none, { st with inodeStream := st.inodeStream.put inodeNum })
          else (none, st)
        match failed with
        | some e => some (.error e, d, st)
        | none =>
          let (st, _) := putInode inode inodeNum st
          match d.removeFile name st with
          | none => none
          | some (r, d, st) => some (r.map fun _ => (), d, st)

/-! ## Concrete instances read by witnesses and counterexamples -/

/-- A fresh filesystem state: empty stores, both allocators at `lastInt = 1`
(as a fresh mount initializes them), clock at `0`. -/
def freshState : FsState :=
  { dataBlocks := [], inodeBlocks := [], dataStream := ⟨[], 1⟩, inodeStream := ⟨[], 1⟩,
    now := 0, deleteLog := [] }

theorem toLEBytes_length (w n : Nat) : (toLEBytes w n).length = w := by
  induction w generalizing n with
  | zero => rfl
  | succ w ih => simp [toLEBytes, ih]

theorem fromLEBytes_toLEBytes (w n : Nat) :
    fromLEBytes (toLEBytes w n) = n % 256 ^ w := by
  induction w generalizing n with
  | zero => simp [toLEBytes, fromLEBytes, Nat.mod_one]
  | succ w ih =>
    simp only [toLEBytes, fromLEBytes, ih, Nat.mod_mod_of_dvd _ (dvd_refl 256), pow_succ]
    rw [mul_comm (256 ^ w) 256, Nat.mod_mul]

theorem gobDecodeListAux_encode (l : List Nat) :
    ∀ fuel, 8 * l.length ≤ fuel →
      gobDecodeListAux fuel (gobEncodeList l) = some (l.map (· % U64)) := by
  induction l with
  | nil => intro fuel _; cases fuel <;> rfl
  | cons x rest ih =>
    intro fuel hfuel
    have hx : (toLEBytes 8 x).length = 8 := toLEBytes_length 8 x
    have henc : gobEncodeList (x :: rest) = toLEBytes 8 x ++ gobEncodeList rest := rfl
    match fuel, hfuel with
    | fuel + 1, hfuel =>
      have hne : gobEncodeList (x :: rest) ≠ [] := by
        rw [henc]
        intro h
        have := congrArg List.length h
        simp [hx] at this
      have hlen : ¬ (gobEncodeList (x :: rest)).length < 8 := by
        rw [henc]
        simp [List.length_append, hx]
      rw [show gobDecodeListAux (fuel + 1) (gobEncodeList (x :: rest)) =
            if (gobEncodeList (x :: rest)).length < 8 then none
            else (gobDecodeListAux fuel ((gobEncodeList (x :: rest)).drop 8)).map
              (fromLEBytes ((gobEncodeList (x :: rest)).take 8) :: ·) by
          rw [henc]
          cases h : toLEBytes 8 x with
          | nil => exact absurd (congrArg List.length h) (by simp [hx])
          | cons b bs => rfl]
      rw [if_neg hlen, henc, List.take_append_of_le_length (by omega),
        List.drop_append_of_le_length (by omega)]
      have htake : (toLEBytes 8 x).take 8 = toLEBytes 8 x := by
        rw [List.take_of_length_le (by omega)]
      have hdrop : (toLEBytes 8 x).drop 8 = [] := by
        rw [List.drop_of_length_le (by omega)]
      rw [htake, hdrop, List.nil_append, ih fuel (by simp at hfuel ⊢; omega)]
      simp only [fromLEBytes_toLEBytes, List.map_cons, U64]
      norm_num

theorem gobEncodeList_length (l : List Nat) :
    (gobEncodeList l).length = 8 * l.length := by
  induction l with
  | nil => rfl
  | cons x rest ih =>
    show (toLEBytes 8 x ++ gobEncodeList rest).length = _
    simp [toLEBytes_length, ih]
    ring

theorem gobDecodeList_encode (l : List Nat) :
    gobDecodeList (gobEncodeList l) = some (l.map (· % U64)) := by
  unfold gobDecodeList
  exact gobDecodeListAux_encode l _ (by rw [gobEncodeList_length])


/-! ## Allocator claims -/

/-- **C6.** `next()` returns the most recently `put` value and removes it
from the free-stack when the stack is non-empty (LIFO), and otherwise
returns `lastInt + 1` after incrementing `lastInt`; `put(n)` pushes `n`
onto the stack without validation. -/
theorem claim_C6 (s : IntStream) (n : Nat) :
    (s.put n).stack = n :: s.stack ∧
    (s.put n).next = (n, s) ∧
    (s.stack = [] → s.next = ((s.lastInt + 1) % U64, ⟨[], (s.lastInt + 1) % U64⟩)) := by
  refine ⟨rfl, rfl, fun h => ?_⟩
  cases s with
  | mk stack lastInt =>
    cases h
    rfl

/-- **C10.** `MarshalBinary` is destructive: it leaves the stream's
free-stack empty (while `lastInt` survives), and the bytes it returns are
the encoding of the drained stack. -/
theorem claim_C10 (s : IntStream) :
    s.MarshalBinary.2.stack = [] ∧
    s.MarshalBinary.2.lastInt = s.lastInt ∧
    s.MarshalBinary.1 = gobEncodeList s.stack.reverse :=
  ⟨rfl, rfl, rfl⟩

/-- **C7.** Serialize-then-deserialize is the identity on the free-stack:
`UnmarshalBinary` of `MarshalBinary`'s bytes restores the same elements in
the same order. -/
theorem claim_C7 (s : IntStream) (h : ∀ x ∈ s.stack, x < U64) :
    (s.MarshalBinary.2.UnmarshalBinary s.MarshalBinary.1).map (·.stack) = some s.stack := by
  have hmap : ∀ l : List Nat, (∀ x ∈ l, x < U64) → l.map (· % U64) = l := by
    intro l hl
    induction l with
    | nil => rfl
    | cons a l ih =>
      simp only [List.map_cons, List.cons.injEq]
      exact ⟨Nat.mod_eq_of_lt (hl a (by simp)), ih fun x hx => hl x (by simp [hx])⟩
  show ((gobDecodeList (gobEncodeList s.stack.reverse)).map _).map _ = _
  rw [gobDecodeList_encode]
  show some ((s.stack.reverse.map (· % U64)).reverse) = some s.stack
  rw [hmap s.stack.reverse fun x hx => h x (List.mem_reverse.mp hx), List.reverse_reverse]

/-- Witness for C7 at the stack `[4, 9]`. -/
theorem claim_C7_witness :
    ((IntStream.MarshalBinary ⟨[4, 9], 7⟩).2.UnmarshalBinary
      (IntStream.MarshalBinary ⟨[4, 9], 7⟩).1).map (·.stack) = some [4, 9] :=
  claim_C7 ⟨[4, 9], 7⟩ (by decide)

/-! ## Write-path claims -/

/-- `writeDataBlocks` rewrites only the extent array of the inode. -/
theorem writeDataBlocks_Size (i : Inode) (data : List Nat) (offset : Nat) (st : FsState) :
    (writeDataBlocks i data offset st).1.Size = i.Size := rfl

/-- The tail of `writeToData` (hand off the remaining data to
`writeDataBlocks` or stop) keeps whatever `Size` the inode entered with. -/
theorem writeTail_Size (i : Inode) (data : List Nat) (offset : Nat) (st : FsState)
    (p : Inode × FsState)
    (h : (if data ≠ [] then some (writeDataBlocks i data offset st) else some (i, st)) =
      some p) :
    p.1.Size = i.Size := by
  split at h <;> simp only [Option.some.injEq] at h <;> subst h
  · exact writeDataBlocks_Size _ _ _ _
  · rfl

/-- **C1** (the failing run).  Writing content `C = [7, 9]` as the tiling
chunks `[7]` at offset 0 and `[9]` at offset 1 does not leave `C` readable:
the second write panics (in Go: `writeToData` computes
`writeEnd = size - offset = 0` and then slices `i.DataBuf[1:0]` and
`data[0:writeLen]` with `writeLen` underflowed), so the program crashes
before any read can happen. -/
theorem claim_C1_bug :
    (((createInode 0 0).writeToData [7] 0 freshState).bind fun p =>
      p.1.writeToData [9] 1 p.2) = none ∧
    ((createInode 0 0).writeToData [7] 0 freshState).isSome = true := by
  exact ⟨by decide, by decide⟩

/-- **C3** (amended).  After every `writeToData(data, offset)` that
completes, `Size` equals `offset + len(data)` (mod `2^64`) unconditionally —
not `max(old Size, offset + len(data))` — so a write lying inside the
existing content lowers `Size`. -/
theorem claim_C3_amended (i : Inode) (data : List Nat) (offset : Nat) (st : FsState) :
    ∀ p ∈ i.writeToData data offset st, p.1.Size = (data.length + offset) % U64 := by
  intro p hp
  unfold Inode.writeToData at hp
  by_cases h1 : offset < INODE_BUFFER_SIZE
  · simp only [if_pos h1] at hp
    by_cases h2 : offset ≤ (if wrapSub data.length offset < INODE_BUFFER_SIZE then
        wrapSub data.length offset else INODE_BUFFER_SIZE) ∧
        (if wrapSub data.length offset < INODE_BUFFER_SIZE then
          wrapSub data.length offset else INODE_BUFFER_SIZE) ≤ INODE_BUFFER_SIZE ∧
        wrapSub (if wrapSub data.length offset < INODE_BUFFER_SIZE then
          wrapSub data.length offset else INODE_BUFFER_SIZE) offset ≤ data.length
    · simp only [if_pos h2] at hp
      exact writeTail_Size _ _ _ _ _ hp
    · simp only [if_neg h2] at hp
      simp at hp
  · simp only [if_neg h1] at hp
    exact writeTail_Size _ _ _ _ _ hp

/-- Witness for C3 (amended): the completed write of one byte at offset 0 on
a fresh inode leaves `Size = 1`. -/
theorem claim_C3_witness :
    (((createInode 0 0).writeToData [7] 0 freshState).get (by decide)).1.Size = 1 :=
  claim_C3_amended _ _ _ _ _ (Option.get_mem _)

/-- **C3** (counterexample).  On a fresh inode, write 2 bytes at offset 0
(`Size` becomes 2) and then 1 byte at offset 0: `Size` becomes `1`, not
`max 2 1 = 2` — the in-bounds write lowered `Size`. -/
theorem claim_C3_counterexample :
    ((((createInode 0 0).writeToData [1, 2] 0 freshState).bind fun p =>
        p.1.writeToData [7] 0 p.2).map fun p => p.1.Size) = some 1 ∧
    (1 : Nat) ≠ max 2 1 :=
  ⟨by decide, by decide⟩

/-! ## Read-path claims -/

/-- **C4** (amended).  `readFromData(offset, size)` fails with the
offset-past-end error exactly when `offset ≥ Size` (not only when it
exceeds `Size`). -/
theorem claim_C4_amended (i : Inode) (offset size : Nat) (st : FsState) :
    i.readFromData offset size st =
        Except.error "Offset specified to read is past the end of the file." ↔
      i.Size ≤ offset := by
  unfold Inode.readFromData
  by_cases h : i.Size ≤ offset
  · simp [h]
  · simp only [if_neg h]
    constructor
    · intro hc
      exfalso
      revert hc
      repeat' split
      all_goals simp
    · intro hc
      exact absurd hc h

/-- **C4** (counterexample).  On an inode that has never been written
(`Size = 0`), `readFromData(0, 0)` does **not** succeed: it already fails
with the offset-past-end error (and `readFromData(0, 1)` fails the same
way). -/
theorem claim_C4_counterexample :
    (createInode 0 0).readFromData 0 0 freshState =
        Except.error "Offset specified to read is past the end of the file." ∧
    (createInode 0 0).readFromData 0 1 freshState =
        Except.error "Offset specified to read is past the end of the file." :=
  ⟨rfl, rfl⟩

/-! ## Superblock claim -/

/-- **C2** (the failing run).  Serialize an allocator state with
`lastInt = 5` and free-stack `[29]` through `makeSuperblocks`, then mount it
with `makeFs`: the reconstructed inode stream has `lastInt = 5` but an
**empty** free-stack — `makeFs` only calls `UnmarshalBinary` when
`listSize` is still positive after the read loop, i.e. when bytes are
missing, so a fully read serialized stack is discarded.  (The data-stream
`lastInt = 7` and root `1` do survive.) -/
theorem claim_C2_bug :
    makeFs (makeSuperblocks (IntStream.compressStream ⟨[29], 5⟩)
        (IntStream.compressStream ⟨[], 7⟩) ROOT_INODE
        (IntStream.MarshalBinary ⟨[29], 5⟩).1) =
      some ({ inodeStream := ⟨[], 5⟩, rootInode := 1 }, ⟨[], 7⟩) ∧
    (IntStream.MarshalBinary ⟨[29], 5⟩).1 = gobEncodeList [29] :=
  ⟨by decide, rfl⟩

/-! ## Delete-traversal lemmas -/

theorem Cache.step_capacity (c : Cache) (op : CacheOp) :
    (c.step op).cacheCapacity = c.cacheCapacity := by
  cases op <;> unfold Cache.step Cache.addBlock Cache.getBlock Cache.deleteBlock <;>
    (repeat' split) <;> rfl

/-- One cache call preserves the tracking invariant: at most `capacity` keys
and no key twice. -/
theorem Cache.step_inv (c : Cache) (op : CacheOp) (hC : 0 < c.cacheCapacity)
    (hlen : c.recentlyUsedQueue.length ≤ c.cacheCapacity)
    (hnd : c.recentlyUsedQueue.Nodup) :
    (c.step op).recentlyUsedQueue.length ≤ c.cacheCapacity ∧
      (c.step op).recentlyUsedQueue.Nodup := by
  cases op with
  | add key ok =>
    show (c.addBlock key ok).recentlyUsedQueue.length ≤ c.cacheCapacity ∧
      (c.addBlock key ok).recentlyUsedQueue.Nodup
    unfold Cache.addBlock
    by_cases hok : ok = false
    · simp only [if_pos hok]
      exact ⟨hlen, hnd⟩
    · simp only [if_neg hok]
      by_cases hmem : key ∈ c.recentlyUsedQueue
      · simp only [if_pos hmem]
        refine ⟨?_, ?_⟩
        · simp only [List.length_append, List.length_singleton]
          have := List.length_erase_add_one hmem
          omega
        · rw [List.nodup_append]
          exact ⟨hnd.erase key, List.nodup_singleton key,
            by simp [List.disjoint_singleton, hnd.not_mem_erase]⟩
      · simp only [if_neg hmem]
        by_cases hfull : c.recentlyUsedQueue.length = c.cacheCapacity
        · simp only [if_pos hfull]
          have htail : c.recentlyUsedQueue.tail.length + 1 = c.recentlyUsedQueue.length :=
            List.length_tail_add_one _ (by omega)
          refine ⟨?_, ?_⟩
          · simp only [List.length_append, List.length_singleton]
            omega
          · rw [List.nodup_append]
            refine ⟨?_, List.nodup_singleton key, ?_⟩
            · cases hq : c.recentlyUsedQueue with
              | nil => exact List.nodup_nil
              | cons x xs => exact (hq ▸ hnd).of_cons
            · simp only [List.disjoint_singleton]
              exact fun hm => hmem (List.tail_subset _ hm)
        · simp only [if_neg hfull]
          refine ⟨?_, ?_⟩
          · simp only [List.length_append, List.length_singleton]
            omega
          · rw [List.nodup_append]
            exact ⟨hnd, List.nodup_singleton key, by simp [List.disjoint_singleton, hmem]⟩
  | get key ok =>
    show ((c.getBlock key ok).1).recentlyUsedQueue.length ≤ c.cacheCapacity ∧
      ((c.getBlock key ok).1).recentlyUsedQueue.Nodup
    unfold Cache.getBlock
    by_cases hmem : key ∈ c.recentlyUsedQueue
    · simp only [if_pos hmem]
      by_cases hok : ok = true
      · simp only [if_pos hok]
        refine ⟨?_, ?_⟩
        · simp only [List.length_append, List.length_singleton]
          have := List.length_erase_add_one hmem
          omega
        · rw [List.nodup_append]
          exact ⟨hnd.erase key, List.nodup_singleton key,
            by simp [List.disjoint_singleton, hnd.not_mem_erase]⟩
      · simp only [if_neg hok]
        exact ⟨hlen, hnd⟩
    · simp only [if_neg hmem]
      exact ⟨hlen, hnd⟩
  | del key =>
    show ((c.deleteBlock key).1).recentlyUsedQueue.length ≤ c.cacheCapacity ∧
      ((c.deleteBlock key).1).recentlyUsedQueue.Nodup
    unfold Cache.deleteBlock
    by_cases hmem : key ∈ c.recentlyUsedQueue
    · simp only [if_pos hmem]
      refine ⟨?_, hnd.erase key⟩
      have := List.length_erase_add_one hmem
      omega
    · simp only [if_neg hmem]
      exact ⟨hlen, hnd⟩

/-- The invariant holds along any run from any invariant-satisfying start. -/
theorem Cache.run_inv (ops : List CacheOp) (c : Cache) (hC : 0 < c.cacheCapacity)
    (hlen : c.recentlyUsedQueue.length ≤ c.cacheCapacity)
    (hnd : c.recentlyUsedQueue.Nodup) :
    (c.run ops).recentlyUsedQueue.length ≤ (c.run ops).cacheCapacity ∧
      (c.run ops).recentlyUsedQueue.Nodup := by
  induction ops generalizing c with
  | nil => exact ⟨hlen, hnd⟩
  | cons op rest ih =>
    show ((c.step op).run rest).recentlyUsedQueue.length ≤ _ ∧ _
    have hcap := Cache.step_capacity c op
    have hstep := Cache.step_inv c op hC hlen hnd
    exact ih (c.step op) (hcap ▸ hC) (hcap ▸ hstep.1) hstep.2

/-- A run never changes the capacity. -/
theorem Cache.run_capacity (ops : List CacheOp) (c : Cache) :
    (c.run ops).cacheCapacity = c.cacheCapacity := by
  induction ops generalizing c with
  | nil => rfl
  | cons op rest ih =>
    show ((c.step op).run rest).cacheCapacity = _
    rw [ih, Cache.step_capacity]

/-- **C9.**  Starting from a cache of capacity `C > 0`, along any sequence
of `addBlock`/`getBlock`/`deleteBlock` calls the tracked-key sequence never
holds more than `C` keys and no key ever appears twice; and an `addBlock` of
an untracked key on a full cache evicts exactly the front
(least-recently-used) key before appending the new one. -/
theorem claim_C9 (C : Nat) (hC : 0 < C) (ops : List CacheOp) :
    ((initializeCache C).run ops).recentlyUsedQueue.length ≤ C ∧
    ((initializeCache C).run ops).recentlyUsedQueue.Nodup ∧
    (∀ c : Cache, ∀ key : String, key ∉ c.recentlyUsedQueue →
      c.recentlyUsedQueue.length = c.cacheCapacity →
      (c.addBlock key true).recentlyUsedQueue = c.recentlyUsedQueue.tail ++ [key]) := by
  have hrun := Cache.run_inv ops (initializeCache C) hC (by simp [initializeCache])
    (by simp [initializeCache])
  have hcapRun : ((initializeCache C).run ops).cacheCapacity = C :=
    Cache.run_capacity ops (initializeCache C)
  refine ⟨le_of_le_of_eq hrun.1 hcapRun, hrun.2, ?_⟩
  intro c key hmem hfull
  unfold Cache.addBlock
  rw [if_neg (by simp), if_neg hmem, if_pos hfull]

/-- Witness for C9: capacity 1, three calls. -/
theorem claim_C9_witness :
    ((initializeCache 1).run
        [CacheOp.add "a" true, CacheOp.add "b" true, CacheOp.del "a"]).recentlyUsedQueue.length
        ≤ 1 ∧
    ((initializeCache 1).run
        [CacheOp.add "a" true, CacheOp.add "b" true, CacheOp.del "a"]).recentlyUsedQueue.Nodup ∧
    (∀ c : Cache, ∀ key : String, key ∉ c.recentlyUsedQueue →
      c.recentlyUsedQueue.length = c.cacheCapacity →
      (c.addBlock key true).recentlyUsedQueue = c.recentlyUsedQueue.tail ++ [key]) :=
  claim_C9 1 (by decide) [CacheOp.add "a" true, CacheOp.add "b" true, CacheOp.del "a"]

/-! ## State-preservation lemmas for the `Remove` path

Every block-level write or delete touches only `dataBlocks`, `dataStream`,
`inodeBlocks` and the delete log; the process-wide inode stream survives
them unchanged. -/

theorem writeBlock_inodeStream (data : List Nat) (offset blockNum : Nat) (st : FsState) :
    ((writeBlock data offset blockNum st).2).inodeStream = st.inodeStream := by
  unfold writeBlock putData
  cases getData st blockNum <;> rfl

theorem writeIndirectLoop_inodeStream (iters : Nat) :
    ∀ (j : Nat) (blk data : List Nat) (offset : Nat) (st : FsState),
      ((writeIndirectLoop iters j blk data offset st).2.2).inodeStream = st.inodeStream := by
  induction iters with
  | zero => intro j blk data offset st; rfl
  | succ k ih =>
    intro j blk data offset st
    unfold writeIndirectLoop
    split
    · rcases hw : writeBlock data offset (fromLEBytes (readRange blk j 8)) st with ⟨⟨bn, d⟩, st'⟩
      have hst : st'.inodeStream = st.inodeStream := by
        have := writeBlock_inodeStream data offset (fromLEBytes (readRange blk j 8)) st
        rw [hw] at this
        exact this
      simp only [hw]
      rw [ih]
      exact hst
    · exact ih _ _ _ _ _

theorem writeIndirect_inodeStream (data : List Nat) (offset indBlockNum : Nat) (st : FsState) :
    ((writeIndirect data offset indBlockNum st).2).inodeStream = st.inodeStream := by
  unfold writeIndirect
  cases hg : getData st indBlockNum
  · exact writeIndirectLoop_inodeStream _ _ _ _ _ _
  · exact writeIndirectLoop_inodeStream _ _ _ _ _ _

theorem writeDoubIndirectLoop_inodeStream (iters : Nat) :
    ∀ (j : Nat) (blk data : List Nat) (offset : Nat) (st : FsState),
      ((writeDoubIndirectLoop iters j blk data offset st).2.2).inodeStream = st.inodeStream := by
  induction iters with
  | zero => intro j blk data offset st; rfl
  | succ k ih =>
    intro j blk data offset st
    unfold writeDoubIndirectLoop
    split
    · rcases hw : writeIndirect data offset (fromLEBytes (readRange blk j 8)) st with ⟨⟨bn, d⟩, st'⟩
      have hst : st'.inodeStream = st.inodeStream := by
        have := writeIndirect_inodeStream data offset (fromLEBytes (readRange blk j 8)) st
        rw [hw] at this
        exact this
      simp only [hw]
      rw [ih]
      exact hst
    · exact ih _ _ _ _ _

theorem writeDoubIndirect_inodeStream (data : List Nat) (offset n : Nat) (st : FsState) :
    ((writeDoubIndirect data offset n st).2).inodeStream = st.inodeStream := by
  unfold writeDoubIndirect
  cases hg : getData st n
  · exact writeDoubIndirectLoop_inodeStream _ _ _ _ _ _
  · exact writeDoubIndirectLoop_inodeStream _ _ _ _ _ _

theorem writeTripIndirectLoop_inodeStream (iters : Nat) :
    ∀ (j : Nat) (blk data : List Nat) (offset : Nat) (st : FsState),
      ((writeTripIndirectLoop iters j blk data offset st).2.2).inodeStream = st.inodeStream := by
  induction iters with
  | zero => intro j blk data offset st; rfl
  | succ k ih =>
    intro j blk data offset st
    unfold writeTripIndirectLoop
    split
    · rcases hw : writeDoubIndirect data offset (fromLEBytes (readRange blk j 8)) st
        with ⟨⟨bn, d⟩, st'⟩
      have hst : st'.inodeStream = st.inodeStream := by
        have := writeDoubIndirect_inodeStream data offset (fromLEBytes (readRange blk j 8)) st
        rw [hw] at this
        exact this
      simp only [hw]
      rw [ih]
      exact hst
    · exact ih _ _ _ _ _

theorem writeTripIndirect_inodeStream (data : List Nat) (offset n : Nat) (st : FsState) :
    ((writeTripIndirect data offset n st).2).inodeStream = st.inodeStream := by
  unfold writeTripIndirect
  cases hg : getData st n
  · exact writeTripIndirectLoop_inodeStream _ _ _ _ _ _
  · exact writeTripIndirectLoop_inodeStream _ _ _ _ _ _

theorem writeDirectLoop_inodeStream (slots : List Nat) :
    ∀ (data : List Nat) (offset : Nat) (st : FsState),
      ((writeDirectLoop slots data offset st).2.2.2).inodeStream = st.inodeStream := by
  induction slots with
  | nil => intro data offset st; rfl
  | cons slot rest ih =>
    intro data offset st
    unfold writeDirectLoop
    split
    · rcases hw : writeBlock data offset slot st with ⟨⟨bn, d⟩, st'⟩
      have hst : st'.inodeStream = st.inodeStream := by
        have := writeBlock_inodeStream data offset slot st
        rw [hw] at this
        exact this
      simp only [hw]
      rcases hrest : writeDirectLoop rest d 0 st' with ⟨a, b, c, st''⟩
      have := ih d 0 st'
      rw [hrest] at this
      simp only [hrest]
      rw [this]
      exact hst
    · rcases hrest : writeDirectLoop rest data (wrapSub offset BLOCK_SIZE) st with ⟨a, b, c, st''⟩
      have := ih data (wrapSub offset BLOCK_SIZE) st
      rw [hrest] at this
      simp only [hrest]
      exact this

theorem proj4_inodeStream (a : Nat) (b : List Nat) (c : Nat) (d st : FsState)
    (h : d.inodeStream = st.inodeStream) :
    ((a, b, c, d) : Nat × List Nat × Nat × FsState).2.2.2.inodeStream = st.inodeStream := h

theorem proj2_inodeStream (a : Nat) (d st : FsState)
    (h : d.inodeStream = st.inodeStream) :
    ((a, d) : Nat × FsState).2.inodeStream = st.inodeStream := h

theorem projL2_inodeStream (a : List Nat) (d st : FsState)
    (h : d.inodeStream = st.inodeStream) :
    ((a, d) : List Nat × FsState).2.inodeStream = st.inodeStream := h

theorem writeDataBlocksCore_inodeStream (slots data : List Nat) (offset : Nat) (st : FsState) :
    ((writeDataBlocksCore slots data offset st).2).inodeStream = st.inodeStream := by
  simp only [writeDataBlocksCore]
  have hq := writeDirectLoop_inodeStream (slots.take NUM_DATA_BLOCKS) data offset st
  generalize hgq : writeDirectLoop (slots.take NUM_DATA_BLOCKS) data offset st = q at hq ⊢
  have stage1 : ∃ r1 : Nat × List Nat × Nat × FsState,
      (if q.2.1 ≠ [] ∧ q.2.2.1 < FIRST_DOUBLY_INDIRECT_BYTE then
        ((writeIndirect q.2.1 q.2.2.1 (slots.getD IND_BLOCK 0) q.2.2.2).1.1,
          (writeIndirect q.2.1 q.2.2.1 (slots.getD IND_BLOCK 0) q.2.2.2).1.2, 0,
          (writeIndirect q.2.1 q.2.2.1 (slots.getD IND_BLOCK 0) q.2.2.2).2)
      else
        (slots.getD IND_BLOCK 0, q.2.1, wrapSub q.2.2.1 (BLOCK_SIZE * BLOCK_SIZE), q.2.2.2)) =
        r1 ∧
      r1.2.2.2.inodeStream = st.inodeStream := by
    refine ⟨_, rfl, ?_⟩
    split
    · exact proj4_inodeStream _ _ _ _ _
        ((writeIndirect_inodeStream q.2.1 q.2.2.1 (slots.getD IND_BLOCK 0) q.2.2.2).trans hq)
    · exact proj4_inodeStream _ _ _ _ _ hq
  obtain ⟨r1, hr1, hs1⟩ := stage1
  rw [hr1]
  have stage2 : ∃ r2 : Nat × List Nat × Nat × FsState,
      (if r1.2.1 ≠ [] ∧ r1.2.2.1 < FIRST_TRIPLY_INDIRECT_BYTE then
        ((writeDoubIndirect r1.2.1 r1.2.2.1 (slots.getD DOUB_IND_BLOCK 0) r1.2.2.2).1.1,
          (writeDoubIndirect r1.2.1 r1.2.2.1 (slots.getD DOUB_IND_BLOCK 0) r1.2.2.2).1.2, 0,
          (writeDoubIndirect r1.2.1 r1.2.2.1 (slots.getD DOUB_IND_BLOCK 0) r1.2.2.2).2)
      else
        (slots.getD DOUB_IND_BLOCK 0, r1.2.1,
          wrapSub r1.2.2.1 (BLOCK_SIZE * BLOCK_SIZE * BLOCK_SIZE), r1.2.2.2)) = r2 ∧
      r2.2.2.2.inodeStream = st.inodeStream := by
    refine ⟨_, rfl, ?_⟩
    split
    · exact proj4_inodeStream _ _ _ _ _
        ((writeDoubIndirect_inodeStream r1.2.1 r1.2.2.1 (slots.getD DOUB_IND_BLOCK 0)
          r1.2.2.2).trans hs1)
    · exact proj4_inodeStream _ _ _ _ _ hs1
  obtain ⟨r2, hr2, hs2⟩ := stage2
  rw [hr2]
  have stage3 : ∃ r3 : Nat × FsState,
      (if r2.2.1 ≠ [] then
        ((writeTripIndirect r2.2.1 r2.2.2.1 (slots.getD TRIP_IND_BLOCK 0) r2.2.2.2).1.1,
          (writeTripIndirect r2.2.1 r2.2.2.1 (slots.getD TRIP_IND_BLOCK 0) r2.2.2.2).2)
      else (slots.getD TRIP_IND_BLOCK 0, r2.2.2.2)) = r3 ∧
      r3.2.inodeStream = st.inodeStream := by
    refine ⟨_, rfl, ?_⟩
    split
    · exact proj2_inodeStream _ _ _
        ((writeTripIndirect_inodeStream r2.2.1 r2.2.2.1 (slots.getD TRIP_IND_BLOCK 0)
          r2.2.2.2).trans hs2)
    · exact proj2_inodeStream _ _ _ hs2
  obtain ⟨r3, hr3, hs3⟩ := stage3
  rw [hr3]
  exact hs3
